import Mathlib

/-!
Verification development for the `bevy_hsm` hierarchical state machine crate.

Each Rust module relevant to the checked properties is shallowly embedded as
executable Lean definitions, translated function-by-function from the source:

* `src/history.rs`         → `StateHistory`
* `src/state.rs`           → `StateMachine`, `HsmOnState`, the `Exit`-phase
  completion step and the `Terminated::on_remove` hook
* `src/state_tree.rs`      → `StateTree` (`add`, `remove`, `has_link`)
* `src/state_condition.rs` → `CombinationCondition` (+ parser) and
  `CombinationConditionId.run`
* `src/on_transition.rs`   → `getOnExitNextStates`
* `src/system_state.rs`    → `HsmActionSystemBuffer`

Bevy `Entity` values are modelled as natural numbers; hash maps / hash sets are
modelled as association lists / `Finset`s (only their finite-map semantics are
used by the embedded code).
-/

namespace BevyHsm

/-- Bevy entity identifier (`Entity`), modelled as a natural number. -/
abbrev Entity := Nat

/-! ## `src/history.rs` — `StateHistory`

The Rust struct stores a `VecDeque` (front = oldest entry) together with a
fixed `max_size`.  The element type is a parameter here because different
snapshots of the crate store `HistoricalNode` resp. `Entity` values; `push`
has the same code in both. -/

/-- `StateHistory` from `history.rs`: a bounded deque, front = oldest. -/
structure StateHistory (α : Type) where
  history : List α
  max_size : Nat
  deriving Repr, DecidableEq

/-- `StateHistory::new(max_size)`. -/
def StateHistory.new (α : Type) (maxSize : Nat) : StateHistory α :=
  { history := [], max_size := maxSize }

/-- `StateHistory::push`: `if self.history.len() >= self.max_size
{ self.history.pop_front(); } self.history.push_back(node);`. -/
def StateHistory.push {α : Type} (h : StateHistory α) (node : α) : StateHistory α :=
  let dropped := if h.max_size ≤ h.history.length then h.history.tail else h.history
  { h with history := dropped ++ [node] }

/-- `StateHistory::get_current` (`self.history.back()`). -/
def StateHistory.getCurrent {α : Type} (h : StateHistory α) : Option α :=
  h.history.getLast?

/-- `StateHistory::len`. -/
def StateHistory.lenH {α : Type} (h : StateHistory α) : Nat :=
  h.history.length

/-- Push a whole list of entries in order (iterated `StateHistory::push`). -/
def StateHistory.pushAll {α : Type} (h : StateHistory α) (xs : List α) : StateHistory α :=
  xs.foldl StateHistory.push h

/-! ## `src/state_condition.rs` — `CombinationCondition` and its parser

The lexer state is the remaining character list (its head is the lexer's
`current_char`).  Error messages keep the source's wording without the quote
marks around interpolated fragments. -/

/-- `CombinationCondition` (name-based condition tree). -/
inductive CombinationCondition where
  | and (conditions : List CombinationCondition)
  | or (conditions : List CombinationCondition)
  | not (condition : CombinationCondition)
  | id (name : String)

/-- `Token` from the lexer. -/
inductive Token where
  | identifier (name : String)
  | leftParen
  | rightParen
  | comma
  deriving Repr, DecidableEq

/-- `Lexer::skip_whitespace`. -/
def skipWhitespace (input : List Char) : List Char :=
  input.dropWhile Char.isWhitespace

/-- Rust `ch.is_alphanumeric() || ch == '_'` (identifier continuation). -/
def isIdentChar (c : Char) : Bool :=
  c.isAlphanum || c == '_'

/-- `Lexer::next_token`: the produced token (if any) and the lexer state after
it.  A character that starts no token is consumed and ends the token stream
(`None`), exactly as in the source. -/
def nextToken (input : List Char) : Option Token × List Char :=
  match skipWhitespace input with
  | [] => (Option.none, [])
  | c :: rest =>
      if c = '(' then (some Token.leftParen, rest)
      else if c = ')' then (some Token.rightParen, rest)
      else if c = ',' then (some Token.comma, rest)
      else if c.isAlpha then
        (some (Token.identifier (String.mk ((c :: rest).takeWhile isIdentChar))),
          (c :: rest).dropWhile isIdentChar)
      else (Option.none, rest)

/-- The parser state: lexer remainder plus the one-token lookahead. -/
structure ConditionTextReader where
  lexer : List Char
  current_token : Option Token
  deriving Repr, DecidableEq

/-- `Parser::new`. -/
def ConditionTextReader.new (input : List Char) : ConditionTextReader :=
  let step := nextToken input
  { lexer := step.2, current_token := step.1 }

/-- `Parser::advance`. -/
def ConditionTextReader.advance (p : ConditionTextReader) : ConditionTextReader :=
  let step := nextToken p.lexer
  { lexer := step.2, current_token := step.1 }

/-- `Parser::expect_identifier`. -/
def ConditionTextReader.expectIdentifier (p : ConditionTextReader) :
    Except String (String × ConditionTextReader) :=
  match p.current_token with
  | some (Token.identifier name) => .ok (name, p.advance)
  | _ => .error "combination_condition: expect identifier"

mutual

/-- `Parser::parse_combination_condition`, fuelled.  Every recursive call
passes a strictly smaller fuel; since each grammar level consumes input, a
fuel linear in the input length always suffices, and the top-level `parse`
supplies one, so the fuel-exhausted error is unreachable from there. -/
def parseCombinationCondition : Nat → ConditionTextReader →
    Except String (CombinationCondition × ConditionTextReader)
  | 0, _ => .error "fuel exhausted"
  | fuel + 1, p =>
      match p.current_token with
      | some (Token.identifier name) =>
          if name = "Not" then parseNotCondition fuel p
          else if name = "And" then parseAndCondition fuel p
          else if name = "Or" then parseOrCondition fuel p
          else
            match p.lexer.head? with
            | some '(' =>
                .error ("combination_condition: invalid operator " ++ name ++
                  ", only And, Or, Not are allowed")
            | _ =>
                match p.expectIdentifier with
                | .error e => .error e
                | .ok (name2, p2) => .ok (CombinationCondition.id name2, p2)
      | _ => .error "combination_condition: expect Not, And, Or or identifier"

/-- `Parser::parse_not_condition`. -/
def parseNotCondition : Nat → ConditionTextReader →
    Except String (CombinationCondition × ConditionTextReader)
  | 0, _ => .error "fuel exhausted"
  | fuel + 1, p =>
      match p.expectIdentifier with
      | .error e => .error e
      | .ok (_, p1) =>
          if p1.current_token = some Token.leftParen then
            match parseCombinationCondition fuel p1.advance with
            | .error e => .error e
            | .ok (inner, p2) =>
                if p2.current_token = some Token.rightParen then
                  .ok (CombinationCondition.not inner, p2.advance)
                else .error "combination_condition: expect closing paren after inner condition"
          else .error "combination_condition: expect opening paren after Not"

/-- `Parser::parse_and_condition`. -/
def parseAndCondition : Nat → ConditionTextReader →
    Except String (CombinationCondition × ConditionTextReader)
  | 0, _ => .error "fuel exhausted"
  | fuel + 1, p =>
      match p.expectIdentifier with
      | .error e => .error e
      | .ok (_, p1) =>
          if p1.current_token = some Token.leftParen then
            match parseCombinationCondition fuel p1.advance with
            | .error e => .error e
            | .ok (first, p2) =>
                match parseMoreConditions fuel p2 [first] with
                | .error e => .error e
                | .ok (conds, p3) =>
                    if p3.current_token = some Token.rightParen then
                      let p4 := p3.advance
                      if conds.length = 1 then
                        .error "combination_condition: expect at least 2 conditions after And"
                      else .ok (CombinationCondition.and conds, p4)
                    else .error "combination_condition: expect closing paren after inner conditions"
          else .error "combination_condition: expect opening paren after And"

/-- `Parser::parse_or_condition`. -/
def parseOrCondition : Nat → ConditionTextReader →
    Except String (CombinationCondition × ConditionTextReader)
  | 0, _ => .error "fuel exhausted"
  | fuel + 1, p =>
      match p.expectIdentifier with
      | .error e => .error e
      | .ok (_, p1) =>
          if p1.current_token = some Token.leftParen then
            match parseCombinationCondition fuel p1.advance with
            | .error e => .error e
            | .ok (first, p2) =>
                match parseMoreConditions fuel p2 [first] with
                | .error e => .error e
                | .ok (conds, p3) =>
                    if p3.current_token = some Token.rightParen then
                      let p4 := p3.advance
                      if conds.length = 1 then
                        .error "combination_condition: expect at least 2 conditions after Or"
                      else .ok (CombinationCondition.or conds, p4)
                    else .error "combination_condition: expect closing paren after inner conditions"
          else .error "combination_condition: expect opening paren after Or"

/-- The `while matches!(self.current_token, Some(Token::Comma))` loop shared by
`parse_and_condition` / `parse_or_condition`. -/
def parseMoreConditions : Nat → ConditionTextReader → List CombinationCondition →
    Except String (List CombinationCondition × ConditionTextReader)
  | 0, _, _ => .error "fuel exhausted"
  | fuel + 1, p, acc =>
      if p.current_token = some Token.comma then
        match parseCombinationCondition fuel p.advance with
        | .error e => .error e
        | .ok (c, p1) => parseMoreConditions fuel p1 (acc ++ [c])
      else .ok (acc, p)

end

/-- Rust `str::trim`: drop whitespace from both ends of the character list. -/
def trimChars (l : List Char) : List Char :=
  ((l.dropWhile Char.isWhitespace).reverse.dropWhile Char.isWhitespace).reverse

/-- `CombinationCondition::parse`: trim, build the parser, parse one
condition; the remaining input is never examined. -/
def CombinationCondition.parse (s : String) : Except String CombinationCondition :=
  let input := trimChars s.data
  match parseCombinationCondition (4 * input.length + 8) (ConditionTextReader.new input) with
  | .error e => .error e
  | .ok (c, _) => .ok c

/-! ## `src/state.rs` — `StateMachine`, lifecycle phases, `Terminated` hook -/

/-- `HsmOnState`: the lifecycle-phase component (`Enter`/`Update`/`Exit`). -/
inductive HsmOnState where
  | enter
  | update
  | exit
  deriving Repr, DecidableEq

/-- `NextState` from `state.rs`: either a concrete `(state, phase)` pair or the
`None` sentinel. -/
inductive NextState where
  | next (state : Entity) (onState : HsmOnState)
  | none
  deriving Repr, DecidableEq

/-- `StateMachine` from `state.rs`: bounded history, pending-transition deque
(front = next to pop), and the initial state. -/
structure StateMachine where
  history : StateHistory Entity
  next_state : List NextState
  initial_state : Entity
  deriving Repr, DecidableEq

/-- `StateMachine::new(history_len, current_state)`. -/
def StateMachine.new (historyLen : Nat) (currentState : Entity) : StateMachine :=
  { history := (StateHistory.new Entity historyLen).push currentState
    next_state := []
    initial_state := currentState }

/-- `StateMachine::curr_state_id` (`self.history.get_current()`). -/
def StateMachine.currStateId (m : StateMachine) : Option Entity :=
  m.history.getCurrent

/-- `StateMachine::push_history`. -/
def StateMachine.pushHistory (m : StateMachine) (s : Entity) : StateMachine :=
  { m with history := m.history.push s }

/-- `StateMachine::pop_next_state` (`self.next_state.pop_front()`), returning
the popped element together with the machine after the pop. -/
def StateMachine.popNextState (m : StateMachine) : Option NextState × StateMachine :=
  (m.next_state.head?, { m with next_state := m.next_state.tail })

/-- Outcome of the `Exit`-phase completion command (`HsmOnState::on_insert`,
`Exit` arm, after the exit system ran): which component gets inserted on the
state-machine entity next. -/
inductive ExitOutcome where
  | toUpdate
  | toTerminated
  | toPhase (state : Entity) (onState : HsmOnState)
  deriving Repr, DecidableEq

/-- The `Exit`-phase completion step from `state.rs` (the queued command at the
end of the `HsmOnState::Exit` arm): pop the pending queue; empty queue ⇒ insert
`HsmOnState::Update`; the `NextState::None` sentinel ⇒ insert `Terminated`;
`NextState::Next((s, on))` ⇒ push `s` to history and insert `on`. -/
def exitCompletionStep (m : StateMachine) : StateMachine × ExitOutcome :=
  let popped := m.popNextState
  match popped.1 with
  | Option.none => (popped.2, .toUpdate)
  | some NextState.none => (popped.2, .toTerminated)
  | some (NextState.next s onState) => (popped.2.pushHistory s, .toPhase s onState)

/-- `Terminated::on_remove` hook body (`state.rs`): clear the pending queue,
then push the initial state onto the history. -/
def terminatedOnRemove (m : StateMachine) : StateMachine :=
  { m with next_state := []
           history := m.history.push m.initial_state }

/-! ## `src/state_tree.rs` — `StateTree`

The `HashMap<Entity, StateTreeNode>` is modelled as an association list with
explicit `mapLookup` / `mapInsert` / `mapRemoveKey` operations carrying the
usual finite-map semantics.  `TraversalStrategy` is stored by the tree but
never inspected by `add` / `remove` / `has_link`, so it is modelled opaquely. -/

/-- `TraversalStrategy`: opaque to all tree mutation operations. -/
abbrev TraversalStrategy := Unit

/-- `StateTreeNode` from `state_tree.rs`. -/
structure StateTreeNode where
  super_state : Option Entity
  traversal : TraversalStrategy
  sub_states : List Entity
  deriving Repr, DecidableEq

/-- `StateTreeNode::new`. -/
def StateTreeNode.new (superState : Option Entity) (traversal : TraversalStrategy) :
    StateTreeNode :=
  { super_state := superState, traversal := traversal, sub_states := [] }

/-- `StateTreeNode::push`: drop the first occurrence of `state` from
`sub_states` (if present), then append `state` at the end. -/
def StateTreeNode.push (n : StateTreeNode) (state : Entity) : StateTreeNode :=
  { n with sub_states := n.sub_states.erase state ++ [state] }

/-- The `HashMap<Entity, StateTreeNode>` field, as an association list. -/
abbrev TreeMap := List (Entity × StateTreeNode)

/-- `HashMap::get`. -/
def mapLookup : TreeMap → Entity → Option StateTreeNode
  | [], _ => Option.none
  | (k', v) :: rest, k => if k' = k then some v else mapLookup rest k

/-- `HashMap::remove` (the resulting map; the removed value is `mapLookup`). -/
def mapRemoveKey (l : TreeMap) (k : Entity) : TreeMap :=
  l.filter (fun p => p.1 != k)

/-- `HashMap::insert` (bind `k` to `v`, replacing any previous binding). -/
def mapInsert (l : TreeMap) (k : Entity) (v : StateTreeNode) : TreeMap :=
  (k, v) :: mapRemoveKey l k

/-- `StateTree` from `state_tree.rs`. -/
structure StateTree where
  root : Entity
  tree : TreeMap
  deriving Repr, DecidableEq

/-- `StateTree::new(root, traversal)`. -/
def StateTree.new (root : Entity) (traversal : TraversalStrategy) : StateTree :=
  { root := root, tree := [(root, StateTreeNode.new Option.none traversal)] }

/-- `StateTree::get`: the `sub_states` slice of `state`'s node. -/
def StateTree.get (t : StateTree) (state : Entity) : Option (List Entity) :=
  (mapLookup t.tree state).map StateTreeNode.sub_states

/-- `StateTree::has_link(from, to)`: does `from`'s child list contain `to`?
(Only a *direct* link is checked.) -/
def StateTree.hasLink (t : StateTree) (fromE toE : Entity) : Bool :=
  match t.get fromE with
  | some v => v.contains toE
  | Option.none => false

/-- `StateTree::add(from, to, traversal)`: reject if `has_link(to, from)`;
else, if `from` is present, push `to` into `from`'s children and (re)insert a
fresh node for `to` with parent `from`.  Returns the Rust `bool` along with the
mutated tree. -/
def StateTree.add (t : StateTree) (fromE toE : Entity) (traversal : TraversalStrategy) :
    Bool × StateTree :=
  if t.hasLink toE fromE then (false, t)
  else
    match mapLookup t.tree fromE with
    | some node =>
        let tree1 := mapInsert t.tree fromE (node.push toE)
        let tree2 := mapInsert tree1 toE (StateTreeNode.new (some fromE) traversal)
        (true, { t with tree := tree2 })
    | Option.none => (false, t)

mutual

/-- `StateTree::extract_subtree`, fuelled: move `target`'s node and recursively
all of its children's nodes from the source map into the new tree's map.  Each
child is first removed from the source map with `.remove(child).unwrap()` — a
missing child is the Rust `unwrap` panic, modelled as `Except.error ()`.  The
fuel only bounds the recursion depth; since every non-final step removes one
entry from the source map, the Rust loop always terminates and a fuel of
`2 * |map| + 2` is always sufficient. -/
def extractSubtree : Nat → TreeMap → TreeMap → Entity → StateTreeNode →
    Except Unit (TreeMap × TreeMap)
  | 0, _, _, _, _ => .error ()
  | fuel + 1, srcM, newM, target, targetNode =>
      match extractChildren fuel srcM newM targetNode.sub_states with
      | .error e => .error e
      | .ok (srcM1, newM1) => .ok (srcM1, mapInsert newM1 target targetNode)

/-- The `for child in &target_node.sub_states` loop inside `extract_subtree`. -/
def extractChildren : Nat → TreeMap → TreeMap → List Entity →
    Except Unit (TreeMap × TreeMap)
  | _, srcM, newM, [] => .ok (srcM, newM)
  | 0, _, _, _ :: _ => .error ()
  | fuel + 1, srcM, newM, c :: cs =>
      match mapLookup srcM c with
      | Option.none => .error ()
      | some cnode =>
          match extractSubtree fuel (mapRemoveKey srcM c) newM c cnode with
          | .error e => .error e
          | .ok (srcM1, newM1) => extractChildren fuel srcM1 newM1 cs

end

/-- `StateTree::remove(from, to)`: `Except.error ()` models a panic.  On
success the pair is (mutated source tree, `Option` of the detached tree). -/
def StateTree.remove (t : StateTree) (fromE toE : Entity) :
    Except Unit (StateTree × Option StateTree) :=
  match mapLookup t.tree fromE with
  | Option.none => .ok (t, Option.none)
  | some node =>
      let node1 := { node with sub_states := node.sub_states.erase toE }
      let tree1 := mapInsert t.tree fromE node1
      match mapLookup tree1 toE with
      | Option.none => .error ()
      | some tnode =>
          let tree2 := mapRemoveKey tree1 toE
          let tnode1 := { tnode with super_state := Option.none }
          match extractSubtree (2 * tree2.length + 2) tree2 [] toE tnode1 with
          | .error e => .error e
          | .ok (srcM, newM) =>
              .ok ({ t with tree := srcM }, some { root := toE, tree := newM })

/-- Tree with the single edge 0 → 1. -/
def c5TreeDirect : StateTree := ((StateTree.new 0 ()).add 0 1 ()).2

/-- Tree with the chain 0 → 1 → 2 (so 2 is a depth-2 descendant of 0). -/
def c5TreeDeep : StateTree := (((StateTree.new 0 ()).add 0 1 ()).2.add 1 2 ()).2

/-! ## `src/hook_system.rs` / `src/system_state.rs` — action dispatch buffer -/

/-- `HsmStateContext` from `hook_system.rs`. -/
structure HsmStateContext where
  service_target : Entity
  state_machine : Entity
  state : Entity
  deriving Repr, DecidableEq

/-- `HsmActionSystemBuffer` from `system_state.rs`.  The `Vec` fields are
lists; the `HashSet` fields are `Finset`s. -/
structure HsmActionSystemBuffer where
  curr : List HsmStateContext
  next : List HsmStateContext
  filter : Finset HsmStateContext
  interceptor : Finset HsmStateContext
  deriving DecidableEq

/-- `HashSet::extend`: insert every element of the list into the set. -/
def insertAllCtx (s : Finset HsmStateContext) (l : List HsmStateContext) :
    Finset HsmStateContext :=
  l.foldl (fun acc x => insert x acc) s

/-- `HsmActionSystemBuffer::update`: swap `curr`/`next`; if `filter` is
non-empty, drop every post-swap `curr` entry contained in `filter` and clear
`filter`; finally clear `next`. -/
def HsmActionSystemBuffer.update (b : HsmActionSystemBuffer) : HsmActionSystemBuffer :=
  if b.filter = ∅ then
    { curr := b.next, next := [], filter := b.filter, interceptor := b.interceptor }
  else
    { curr := b.next.filter (fun x => !(decide (x ∈ b.filter)))
      next := []
      filter := ∅
      interceptor := b.interceptor }

/-- `HsmActionSystemBuffer::update_interceptor`: no-op when `curr == next`;
when `next` is empty, extend the interceptor with all of `curr`; otherwise
extend it with the entries of `next` not contained in `curr`. -/
def HsmActionSystemBuffer.updateInterceptor (b : HsmActionSystemBuffer) :
    HsmActionSystemBuffer :=
  if b.curr = b.next then b
  else if b.next = [] then
    { b with interceptor := insertAllCtx b.interceptor b.curr }
  else
    { b with interceptor :=
        insertAllCtx b.interceptor (b.next.filter (fun x => !(b.curr.contains x))) }

/-- `HsmActionSystemBuffer::add_filter`. -/
def HsmActionSystemBuffer.addFilter (b : HsmActionSystemBuffer) (context : HsmStateContext) :
    HsmActionSystemBuffer :=
  { b with filter := insert context b.filter }

/-- `HsmActionSystemBuffer::add`: push onto `next` unless intercepted. -/
def HsmActionSystemBuffer.add (b : HsmActionSystemBuffer) (context : HsmStateContext) :
    HsmActionSystemBuffer :=
  if context ∈ b.interceptor then b else { b with next := b.next ++ [context] }

/-! ## `src/state_condition.rs` — `CombinationConditionId::run`

Leaves hold registered `SystemId`s; running a system against the world either
yields a `bool` or a `RegisteredSystemError`.  Both are modelled by an
environment `env : Nat → Except Unit Bool`. -/

/-- `CombinationConditionId` (system ids modelled as naturals). -/
inductive CombinationConditionId where
  | and (conditions : List CombinationConditionId)
  | or (conditions : List CombinationConditionId)
  | not (condition : CombinationConditionId)
  | id (systemId : Nat)

mutual

/-- `CombinationConditionId::run`: `And` short-circuits on the first `false`,
`Or` on the first `true`, errors propagate; the `Not` arm is
`not.run(world, input)`; `Id` runs the registered system. -/
def CombinationConditionId.run (env : Nat → Except Unit Bool) :
    CombinationConditionId → Except Unit Bool
  | .and ids => CombinationConditionId.runAnd env ids
  | .or ids => CombinationConditionId.runOr env ids
  | .not n => CombinationConditionId.run env n
  | .id s => env s

/-- The `for id in ids` loop of the `And` arm. -/
def CombinationConditionId.runAnd (env : Nat → Except Unit Bool) :
    List CombinationConditionId → Except Unit Bool
  | [] => .ok true
  | c :: cs =>
      match CombinationConditionId.run env c with
      | .error e => .error e
      | .ok false => .ok false
      | .ok true => CombinationConditionId.runAnd env cs

/-- The `for id in ors` loop of the `Or` arm. -/
def CombinationConditionId.runOr (env : Nat → Except Unit Bool) :
    List CombinationConditionId → Except Unit Bool
  | [] => .ok false
  | c :: cs =>
      match CombinationConditionId.run env c with
      | .error e => .error e
      | .ok true => .ok true
      | .ok false => CombinationConditionId.runOr env cs

end

/-! ## `src/on_transition.rs` — `get_on_exit_next_states` -/

/-- `StateTransitionStrategy`. -/
inductive StateTransitionStrategy where
  | nested
  | parallel
  deriving Repr, DecidableEq

/-- `ExitTransitionBehavior`. -/
inductive ExitTransitionBehavior where
  | rebirth
  | resurrection
  | death
  deriving Repr, DecidableEq

/-- `impl From<ExitTransitionBehavior> for HsmOnState`. -/
def ExitTransitionBehavior.intoOnState : ExitTransitionBehavior → HsmOnState
  | .rebirth => HsmOnState.enter
  | .resurrection => HsmOnState.update
  | .death => HsmOnState.exit

/-- The component reads `get_on_exit_next_states` performs on the ECS world:
the `SuperState` parent link and the `HsmState` component (only its `strategy`
and `behavior` fields are read; `state_machine` is ignored by the algorithm). -/
structure HsmWorld where
  superState : Entity → Option Entity
  hsmState : Entity → Option (StateTransitionStrategy × ExitTransitionBehavior)

/-- The final `match behavior` after the `(Parallel, Death)` walk stops. -/
def parallelDeathFallback (stateId : Entity) :
    ExitTransitionBehavior → Option (List NextState)
  | .rebirth => some [NextState.next stateId HsmOnState.enter]
  | .resurrection => some [NextState.next stateId HsmOnState.update]
  | .death => some [NextState.none]

mutual

/-- `get_on_exit_next_states`, fuelled: the Rust function recurses (directly
and through its two `while let` walks) along parent chains, so the embedding
takes a fuel bounding the walk length; `Option.none` marks exhausted fuel and
is never produced when the fuel exceeds the parent-chain length. -/
def getOnExitNextStates : Nat → HsmWorld → Entity → StateTransitionStrategy →
    ExitTransitionBehavior → Option (List NextState)
  | 0, _, _, _, _ => Option.none
  | fuel + 1, w, stateId, strategy, behavior =>
      match strategy, behavior with
      | _, .resurrection => some [NextState.next stateId HsmOnState.update]
      | _, .rebirth => some [NextState.next stateId HsmOnState.enter]
      | .nested, .death =>
          match w.superState stateId with
          | Option.none =>
              -- `behavior == Death` holds in this arm, so the computed exit
              -- decision is `NextState::Next((state_id, Exit))`
              some [NextState.next stateId HsmOnState.exit]
          | some _ =>
              nestedDeathLoop fuel w stateId [NextState.next stateId HsmOnState.exit]
      | .parallel, .death => parallelDeathLoop fuel w stateId .death

/-- The `while let` walk of the `(Nested, Death)` arm, carrying the
accumulated `next_states` vector. -/
def nestedDeathLoop : Nat → HsmWorld → Entity → List NextState → Option (List NextState)
  | 0, _, _, _ => Option.none
  | fuel + 1, w, currId, acc =>
      match w.superState currId with
      | Option.none => some acc
      | some p =>
          match w.hsmState p with
          | Option.none => some acc
          | some (strategy, behavior) =>
              match w.superState p with
              | Option.none =>
                  some (acc ++ [match behavior with
                    | .death => NextState.next p behavior.intoOnState
                    | _ => NextState.none])
              | some _ =>
                  if ¬(strategy = .nested ∧ behavior = .death) then
                    (getOnExitNextStates fuel w p strategy behavior).map (acc ++ ·)
                  else
                    nestedDeathLoop fuel w p (acc ++ [NextState.next p HsmOnState.exit])

/-- The `while let` walk of the `(Parallel, Death)` arm. -/
def parallelDeathLoop : Nat → HsmWorld → Entity → ExitTransitionBehavior →
    Option (List NextState)
  | 0, _, _, _ => Option.none
  | fuel + 1, w, stateId, behavior =>
      match w.superState stateId with
      | some p =>
          match w.hsmState p with
          | some (strategy, newBehavior) =>
              if ¬(strategy = .parallel ∧ newBehavior = .death) then
                getOnExitNextStates fuel w p strategy newBehavior
              else
                parallelDeathLoop fuel w p newBehavior
          | Option.none => parallelDeathFallback stateId behavior
      | Option.none => parallelDeathFallback stateId behavior

end

/-- A world with no components at all: every state is a parentless root. -/
def c2WorldEmpty : HsmWorld :=
  { superState := fun _ => Option.none, hsmState := fun _ => Option.none }

/-! ## Theorems -/

/-- C10 counterexample: `"a"` alone parses to the complete condition `Id "a"`,
yet `parse("a(")` — the same leading condition followed by the trailing text
`"("` — is a parse error rather than `Ok(Id "a")`: a bare identifier whose
immediately following character is an opening paren is rejected as an invalid
operator.  So the claim's universal "trailing text is silently ignored" fails
at input `"a("`. -/
theorem c10_trailing_paren_counterexample :
    CombinationCondition.parse "a" = .ok (CombinationCondition.id "a") ∧
      CombinationCondition.parse "a(" =
        .error "combination_condition: invalid operator a, only And, Or, Not are allowed" := by
  constructor
  · rfl
  · rfl

/-- C10 (amended): `parse` does not require the input to be fully consumed —
after one complete leading condition any trailing text is silently ignored, as
in `parse("a b") = Ok(Id "a")` and `parse("And(a, b) junk(") = Ok(And(a, b))`
— except that a leading bare identifier *immediately* followed by `(` (no
intervening whitespace) is rejected as an invalid operator instead of being
returned with the remainder ignored. -/
theorem c10_parse_ignores_trailing :
    CombinationCondition.parse "a b" = .ok (CombinationCondition.id "a") ∧
      CombinationCondition.parse "And(a, b) junk(" =
        .ok (CombinationCondition.and
          [CombinationCondition.id "a", CombinationCondition.id "b"]) ∧
      CombinationCondition.parse "a (" = .ok (CombinationCondition.id "a") := by
  refine ⟨rfl, rfl, rfl⟩

theorem StateHistory.push_history {α : Type} (h : StateHistory α) (x : α) :
    (h.push x).history =
      (if h.max_size ≤ h.history.length then h.history.tail else h.history) ++ [x] := rfl

theorem StateHistory.push_max {α : Type} (h : StateHistory α) (x : α) :
    (h.push x).max_size = h.max_size := rfl

/-- Pushing keeps the stored list at the capacity bound (for capacity ≥ 1). -/
theorem StateHistory.push_length_le {α : Type} (h : StateHistory α) (x : α)
    (hN : 1 ≤ h.max_size) (hlen : h.history.length ≤ h.max_size) :
    (h.push x).history.length ≤ h.max_size := by
  rw [StateHistory.push_history]
  by_cases hc : h.max_size ≤ h.history.length
  · rcases hh : h.history with _ | ⟨a, l⟩
    · rw [hh] at hc
      simp only [List.length_nil, Nat.le_zero] at hc
      omega
    · rw [hh] at hc hlen
      rw [if_pos hc, List.tail_cons]
      simp only [List.length_append, List.length_cons, List.length_nil]
      simp only [List.length_cons] at hlen
      omega
  · rw [if_neg hc]
    simp only [List.length_append, List.length_cons, List.length_nil]
    omega

/-- Main bounded-ring characterization: starting from a state within capacity,
`pushAll` keeps exactly the suffix of capacity `max_size` (capacity ≥ 1). -/
theorem StateHistory.pushAll_history {α : Type} (N : Nat) (hN : 1 ≤ N) :
    ∀ (xs : List α) (h : StateHistory α), h.max_size = N → h.history.length ≤ N →
      (h.pushAll xs).history =
        (h.history ++ xs).drop (h.history.length + xs.length - N) := by
  intro xs
  induction xs with
  | nil =>
    intro h hm hlen
    simp only [StateHistory.pushAll, List.foldl_nil, List.length_nil, List.append_nil]
    rw [Nat.add_zero, Nat.sub_eq_zero_of_le (hm ▸ hlen), List.drop_zero]
  | cons x xs ih =>
    intro h hm hlen
    have step : h.pushAll (x :: xs) = (h.push x).pushAll xs := rfl
    rw [step]
    have hm' : (h.push x).max_size = N := by rw [StateHistory.push_max, hm]
    have hlen' : (h.push x).history.length ≤ N := by
      have := StateHistory.push_length_le h x (hm ▸ hN) (hm ▸ hlen)
      rwa [hm] at this
    rw [ih (h.push x) hm' hlen']
    by_cases hc : h.max_size ≤ h.history.length
    · -- capacity reached: push drops the oldest entry
      have hEq : h.history.length = N := le_antisymm (hm ▸ hlen) (hm ▸ hc)
      rcases hh : h.history with _ | ⟨a, l⟩
      · rw [hh] at hEq
        simp only [List.length_nil] at hEq
        omega
      · rw [hh] at hc hEq
        have hpush : (h.push x).history = l ++ [x] := by
          rw [StateHistory.push_history, hh, if_pos hc, List.tail_cons]
        rw [hpush]
        have hlN : l.length + 1 = N := by
          simpa using hEq
        have h1 : (a :: l).length + (x :: xs).length - N = xs.length + 1 := by
          simp only [List.length_cons]
          omega
        have h2 : (l ++ [x]).length + xs.length - N = xs.length := by
          simp only [List.length_append, List.length_cons, List.length_nil]
          omega
        rw [h1, h2]
        have e1 : (a :: l) ++ x :: xs = a :: (l ++ x :: xs) := by simp
        have e2 : (l ++ [x]) ++ xs = l ++ x :: xs := by simp
        rw [e1, e2, List.drop_succ_cons]
    · have hpush : (h.push x).history = h.history ++ [x] := by
        rw [StateHistory.push_history, if_neg hc]
      rw [hpush]
      have h1 : (h.history ++ [x]).length + xs.length - N
            = h.history.length + (x :: xs).length - N := by
        simp only [List.length_append, List.length_cons, List.length_nil]
        omega
      have e2 : (h.history ++ [x]) ++ xs = h.history ++ x :: xs := by simp
      rw [h1, e2]

/-- C7 counterexample: with capacity `N = 0` the claim fails — pushing one entry
into a capacity-0 history leaves one retained entry (`[5]`), not the last 0
entries (`[]`): in `StateHistory::push` the guard `len >= max_size` always fires,
so the deque oscillates between 0 and 1 elements and always retains the last
pushed entry. -/
theorem c7_zero_capacity_counterexample :
    ((StateHistory.new Nat 0).push 5).history = [5] ∧
      ((StateHistory.new Nat 0).push 5).history ≠ [] := by
  constructor
  · rfl
  · decide

/-- C7 (amended): for every capacity `N ≥ 1` and every `k`, pushing `N + k`
entries into a `StateHistory` of capacity `N` retains exactly the last `N`
pushed entries in push order (oldest first); for `N = 0` the code instead always
retains exactly the last pushed entry. -/
theorem c7_history_bounding (N k : Nat) (xs : List Nat) (hN : 1 ≤ N)
    (hlen : xs.length = N + k) :
    ((StateHistory.new Nat N).pushAll xs).history = xs.drop k := by
  have h0 : (StateHistory.new Nat N).history = ([] : List Nat) := rfl
  have hmain := StateHistory.pushAll_history N hN xs (StateHistory.new Nat N) rfl
      (by rw [h0]; simp)
  rw [hmain, h0]
  simp only [List.nil_append, List.length_nil, Nat.zero_add]
  rw [hlen]
  congr 1
  omega

/-- C7 witness: capacity 2, three pushes retain the last two. -/
theorem c7_history_bounding_witness :
    1 ≤ 2 ∧ ([3, 4, 5] : List Nat).length = 2 + 1 ∧
      ((StateHistory.new Nat 2).pushAll [3, 4, 5]).history = [4, 5] :=
  ⟨by decide, by decide, c7_history_bounding 2 1 [3, 4, 5] (by decide) (by decide)⟩

/-- C3 counterexample: a machine whose pending queue is empty at `Exit`
completion is sent to `Update`, not `Terminated` — so "drained to empty ⇒
Terminated" is false on the code. -/
theorem c3_empty_queue_counterexample :
    (StateMachine.new 10 0).next_state = [] ∧
      (exitCompletionStep (StateMachine.new 10 0)).2 = ExitOutcome.toUpdate ∧
      (exitCompletionStep (StateMachine.new 10 0)).2 ≠ ExitOutcome.toTerminated := by
  refine ⟨rfl, rfl, ?_⟩
  decide

/-- C3 (amended): the `Exit`-phase completion step marks the machine
`Terminated` exactly when the front of the pending queue holds the
`NextState::None` sentinel; an empty pending queue instead sends the machine
back to `Update`. -/
theorem c3_terminated_iff_none_sentinel (m : StateMachine) :
    (exitCompletionStep m).2 = ExitOutcome.toTerminated ↔
      m.next_state.head? = some NextState.none := by
  rcases hm : m.next_state.head? with _ | n
  · simp [exitCompletionStep, StateMachine.popNextState, hm]
  · cases n <;> simp [exitCompletionStep, StateMachine.popNextState, hm]

/-- C4 counterexample: clearing `Terminated` does not wipe history — on a
machine with history `[5]`, initial state 7, the hook leaves history `[5, 7]`,
not `[]`: the old entries are retained and the initial state is appended. -/
theorem c4_history_not_wiped_counterexample :
    (terminatedOnRemove
        { history := { history := [5], max_size := 10 }
          next_state := [NextState.next 1 HsmOnState.enter]
          initial_state := 7 }).history.history = [5, 7] ∧
      (terminatedOnRemove
        { history := { history := [5], max_size := 10 }
          next_state := [NextState.next 1 HsmOnState.enter]
          initial_state := 7 }).history.history ≠ [] := by
  refine ⟨rfl, ?_⟩
  decide

/-- C4 (amended): `Terminated::on_remove` clears the pending queue and resets
the current state to the machine's initial state — by pushing the initial state
onto the existing history, which is retained (up to capacity), not cleared. -/
theorem c4_terminated_clear_resets (m : StateMachine) :
    (terminatedOnRemove m).next_state = [] ∧
      (terminatedOnRemove m).currStateId = some m.initial_state ∧
      (terminatedOnRemove m).history = m.history.push m.initial_state := by
  refine ⟨rfl, ?_, rfl⟩
  simp [terminatedOnRemove, StateMachine.currStateId, StateHistory.getCurrent,
    StateHistory.push]

/-- C5 counterexample: in the tree 0 → 1 → 2, state 2 is a descendant of state
0 at depth 2, yet `add(2, 0, _)` returns `true` and mutates the tree (it
re-roots node 0 under 2, creating a cycle): the cycle guard `has_link(to,
from)` only inspects direct child links. -/
theorem c5_deep_cycle_counterexample :
    (c5TreeDeep.add 2 0 ()).1 = true ∧ (c5TreeDeep.add 2 0 ()).2 ≠ c5TreeDeep := by
  constructor
  · rfl
  · decide

/-- C5 (amended): `add(b, a, _)` returns `false` and leaves the tree unchanged
whenever `b` is a *direct* child of `a` (i.e. `has_link(a, b)` holds); deeper
descendants are not rejected by the cycle guard. -/
theorem c5_direct_cycle_rejected (t : StateTree) (fromE toE : Entity)
    (trav : TraversalStrategy) (h : t.hasLink toE fromE = true) :
    t.add fromE toE trav = (false, t) := by
  simp [StateTree.add, h]

/-- C5 witness: in the tree with edge 0 → 1, `add(1, 0, _)` is rejected. -/
theorem c5_direct_cycle_rejected_witness :
    c5TreeDirect.hasLink 0 1 = true ∧ c5TreeDirect.add 1 0 () = (false, c5TreeDirect) :=
  ⟨by decide, c5_direct_cycle_rejected c5TreeDirect 1 0 () (by decide)⟩

/-- A key absent from an association list is absent from any filtering of it. -/
theorem mapLookup_filter_none {l : TreeMap} {k : Entity}
    (p : Entity × StateTreeNode → Bool) (h : mapLookup l k = Option.none) :
    mapLookup (l.filter p) k = Option.none := by
  induction l with
  | nil => simp [List.filter_nil, mapLookup]
  | cons x rest ih =>
    rcases x with ⟨k', v⟩
    rw [mapLookup] at h
    by_cases hk : k' = k
    · rw [if_pos hk] at h
      exact absurd h (by simp)
    · rw [if_neg hk] at h
      have hrec := ih h
      rw [List.filter_cons]
      by_cases hp : p (k', v)
      · rw [if_pos (by simpa using hp), mapLookup, if_neg hk]
        exact hrec
      · rw [if_neg (by simpa using hp)]
        exact hrec

/-- C8 counterexample: on the singleton tree rooted at 0, `remove(0, 1)` (the
parent 0 is present, but 1 is not a state of the tree) reaches
`self.tree.remove(&1).unwrap()` on `None` and panics — so "remove never
panics" is false on the code. -/
theorem c8_remove_panic_counterexample :
    (StateTree.new 0 ()).remove 0 1 = Except.error () := by
  rfl

/-- C8 (amended): `remove(parent, child)` returns `None` without panicking
whenever `parent` is absent from the tree; but when `parent` is present and
`child` is not a state of the tree, the `self.tree.remove(&to).unwrap()` call
panics instead of recovering the inconsistency. -/
theorem c8_remove_panic_behavior (t : StateTree) (fromE toE : Entity) :
    (mapLookup t.tree fromE = Option.none →
        t.remove fromE toE = .ok (t, Option.none)) ∧
      ((mapLookup t.tree fromE).isSome = true →
        mapLookup t.tree toE = Option.none → t.remove fromE toE = .error ()) := by
  constructor
  · intro h
    simp only [StateTree.remove, h]
  · intro h1 h2
    obtain ⟨node, hnode⟩ := Option.isSome_iff_exists.mp h1
    have hne : fromE ≠ toE := by
      intro he
      rw [he, h2] at hnode
      cases hnode
    have habsent :
        mapLookup (mapInsert t.tree fromE
          { node with sub_states := node.sub_states.erase toE }) toE = Option.none := by
      rw [mapInsert, mapLookup, if_neg hne]
      exact mapLookup_filter_none _ h2
    simp only [StateTree.remove, hnode, habsent]

/-- C8 witness: on the singleton tree rooted at 0, `remove(1, 2)` (parent
absent) returns `None` without panicking, and `remove(0, 1)` (parent present,
child absent) panics. -/
theorem c8_remove_panic_behavior_witness :
    (StateTree.new 0 ()).remove 1 2 = .ok (StateTree.new 0 (), Option.none) ∧
      (StateTree.new 0 ()).remove 0 1 = .error () :=
  ⟨(c8_remove_panic_behavior (StateTree.new 0 ()) 1 2).1 (by decide),
    (c8_remove_panic_behavior (StateTree.new 0 ()) 0 1).2 (by decide) (by decide)⟩

theorem mem_insertAllCtx (s : Finset HsmStateContext) (l : List HsmStateContext)
    (x : HsmStateContext) : x ∈ insertAllCtx s l ↔ x ∈ s ∨ x ∈ l := by
  induction l generalizing s with
  | nil => simp [insertAllCtx]
  | cons a l ih =>
    have step : insertAllCtx s (a :: l) = insertAllCtx (insert a s) l := rfl
    rw [step, ih]
    simp only [Finset.mem_insert, List.mem_cons]
    tauto

/-- C6 counterexample: with `curr = []` and `next = [c]` (so `curr ≠ next` and
`next` non-empty), `update_interceptor` adds `c` to the interceptor even though
`c` is absent from `curr` — the general branch extends the interceptor with
`next \ curr`, the reverse of the claimed `curr \ next` diff. -/
theorem c6_interceptor_counterexample :
    (⟨0, 0, 0⟩ : HsmStateContext) ∉
        (⟨[], [⟨0, 0, 0⟩], ∅, ∅⟩ : HsmActionSystemBuffer).curr ∧
      (⟨0, 0, 0⟩ : HsmStateContext) ∈
        ((⟨[], [⟨0, 0, 0⟩], ∅, ∅⟩ : HsmActionSystemBuffer).updateInterceptor).interceptor := by
  constructor
  · decide
  · decide

/-- C6 (amended): `update_interceptor` is a no-op when `next` equals `curr`;
when `next` is empty it extends the interceptor with every context of `curr`;
otherwise it extends the interceptor with exactly the contexts present in
`next` but absent from `curr`. -/
theorem c6_update_interceptor_membership (b : HsmActionSystemBuffer)
    (x : HsmStateContext) :
    x ∈ (b.updateInterceptor).interceptor ↔
      x ∈ b.interceptor ∨
        (b.curr ≠ b.next ∧
          ((b.next = [] ∧ x ∈ b.curr) ∨ (b.next ≠ [] ∧ x ∈ b.next ∧ x ∉ b.curr))) := by
  unfold HsmActionSystemBuffer.updateInterceptor
  by_cases h1 : b.curr = b.next
  · simp [h1]
  · rw [if_neg h1]
    by_cases h2 : b.next = []
    · simp only [if_pos h2, mem_insertAllCtx]
      simp only [h1, h2]
      simp
      constructor
      · rintro (hx | hx)
        · exact Or.inl hx
        · exact Or.inr ⟨List.ne_nil_of_mem hx, hx⟩
      · rintro (hx | ⟨-, hx⟩)
        · exact Or.inl hx
        · exact Or.inr hx
    · rw [if_neg h2]
      simp only [mem_insertAllCtx, List.mem_filter]
      simp [h1, h2]

/-- C9: `add_filter(c)` followed by `update()` removes `c` from the post-swap
`curr`, and the removal happens exactly once: the first `update()` clears the
filter set, and any `update()` on a buffer with an empty filter set leaves the
post-swap `curr` exactly equal to the pre-update `next` (removing nothing). -/
theorem c9_filter_before_next_tick (b : HsmActionSystemBuffer) (c : HsmStateContext) :
    c ∉ ((b.addFilter c).update).curr ∧
      ((b.addFilter c).update).filter = ∅ ∧
      (∀ b2 : HsmActionSystemBuffer, b2.filter = ∅ → (b2.update).curr = b2.next) := by
  have hne : (b.addFilter c).filter ≠ ∅ := Finset.insert_ne_empty _ _
  refine ⟨?_, ?_, ?_⟩
  · unfold HsmActionSystemBuffer.update
    rw [if_neg hne]
    simp only [List.mem_filter]
    rintro ⟨-, hmem⟩
    simp [HsmActionSystemBuffer.addFilter] at hmem
  · unfold HsmActionSystemBuffer.update
    rw [if_neg hne]
  · intro b2 h2
    unfold HsmActionSystemBuffer.update
    rw [if_pos h2]

/-- C9 witness: concrete buffer with `next = [c]`. -/
theorem c9_filter_before_next_tick_witness :
    (⟨0, 1, 2⟩ : HsmStateContext) ∉
        (((⟨[], [⟨0, 1, 2⟩], ∅, ∅⟩ : HsmActionSystemBuffer).addFilter ⟨0, 1, 2⟩).update).curr ∧
      ((((⟨[], [⟨0, 1, 2⟩], ∅, ∅⟩ : HsmActionSystemBuffer).addFilter ⟨0, 1, 2⟩).update).update).curr =
        (((⟨[], [⟨0, 1, 2⟩], ∅, ∅⟩ : HsmActionSystemBuffer).addFilter ⟨0, 1, 2⟩).update).next := by
  have h := c9_filter_before_next_tick (⟨[], [⟨0, 1, 2⟩], ∅, ∅⟩ : HsmActionSystemBuffer) ⟨0, 1, 2⟩
  exact ⟨h.1, h.2.2 _ h.2.1⟩

/-- C1: the `Not` arm of `CombinationConditionId::run` forwards its child's
result unchanged — it never negates.  In particular, in an environment where
every condition returns `Ok(true)`, `Not(Id 0)` evaluates to `Ok(true)`
instead of the claimed `Ok(false)`. -/
theorem c1_not_forwards_child_result :
    (∀ (env : Nat → Except Unit Bool) (c : CombinationConditionId),
        CombinationConditionId.run env (.not c) = CombinationConditionId.run env c) ∧
      CombinationConditionId.run (fun _ => .ok true) (.not (.id 0)) = .ok true := by
  constructor
  · intro env c
    rw [CombinationConditionId.run]
  · rw [CombinationConditionId.run, CombinationConditionId.run]

/-- C2 counterexample: for a parentless state with strategy `Parallel` and
behavior `Death`, `get_on_exit_next_states` returns `[None]`, not the claimed
`[(s, Exit)]` — the `(Parallel, Death)` arm falls through its walk to
`vec![NextState::None]`, unlike the `(Nested, Death)` arm. -/
theorem c2_parallel_death_root_counterexample :
    getOnExitNextStates 2 c2WorldEmpty 0 .parallel .death = some [NextState.none] ∧
      getOnExitNextStates 2 c2WorldEmpty 0 .parallel .death ≠
        some [NextState.next 0 HsmOnState.exit] := by
  constructor
  · rfl
  · decide

/-- C2 (amended): for any state `s` and either strategy, behavior
`Resurrection` yields exactly `[(s, Update)]` and behavior `Rebirth` yields
exactly `[(s, Enter)]`; when `s` has no parent and its behavior is `Death`,
strategy `Nested` yields `[(s, Exit)]` but strategy `Parallel` yields
`[None]`. -/
theorem c2_exit_resolution_stop_rules (fuel : Nat) (w : HsmWorld) (s : Entity)
    (hroot : w.superState s = Option.none) :
    getOnExitNextStates (fuel + 2) w s .nested .resurrection
        = some [NextState.next s HsmOnState.update] ∧
      getOnExitNextStates (fuel + 2) w s .parallel .resurrection
        = some [NextState.next s HsmOnState.update] ∧
      getOnExitNextStates (fuel + 2) w s .nested .rebirth
        = some [NextState.next s HsmOnState.enter] ∧
      getOnExitNextStates (fuel + 2) w s .parallel .rebirth
        = some [NextState.next s HsmOnState.enter] ∧
      getOnExitNextStates (fuel + 2) w s .nested .death
        = some [NextState.next s HsmOnState.exit] ∧
      getOnExitNextStates (fuel + 2) w s .parallel .death
        = some [NextState.none] := by
  refine ⟨rfl, rfl, rfl, rfl, ?_, ?_⟩
  · show (match w.superState s with
      | Option.none => some [NextState.next s HsmOnState.exit]
      | some _ =>
          nestedDeathLoop (fuel + 1) w s [NextState.next s HsmOnState.exit])
      = some [NextState.next s HsmOnState.exit]
    rw [hroot]
  · show parallelDeathLoop (fuel + 1) w s .death = some [NextState.none]
    rw [parallelDeathLoop, hroot]
    rfl

/-- C2 witness: the empty world, state 0 (a parentless root). -/
theorem c2_exit_resolution_stop_rules_witness :
    getOnExitNextStates 2 c2WorldEmpty 0 .nested .resurrection
        = some [NextState.next 0 HsmOnState.update] ∧
      getOnExitNextStates 2 c2WorldEmpty 0 .parallel .resurrection
        = some [NextState.next 0 HsmOnState.update] ∧
      getOnExitNextStates 2 c2WorldEmpty 0 .nested .rebirth
        = some [NextState.next 0 HsmOnState.enter] ∧
      getOnExitNextStates 2 c2WorldEmpty 0 .parallel .rebirth
        = some [NextState.next 0 HsmOnState.enter] ∧
      getOnExitNextStates 2 c2WorldEmpty 0 .nested .death
        = some [NextState.next 0 HsmOnState.exit] ∧
      getOnExitNextStates 2 c2WorldEmpty 0 .parallel .death
        = some [NextState.none] :=
  c2_exit_resolution_stop_rules 0 c2WorldEmpty 0 rfl

end BevyHsm
